import Mathlib

/-!
# Verification of the period-report engine of the Discord automation bot

Shallow embedding of `src/main.py` (and of CPython's `datetime` calendar
arithmetic, which the period computations rely on):

* a proleptic Gregorian calendar model (`Date`, `Date.toOrdinal`,
  `Date.weekday`) mirroring `datetime.date`;
* the schedule calculator `seconds_until_next_run` on a fixed-offset wall
  clock at microsecond resolution;
* the period-window functions `weekly_period` and `monthly_period`;
* the history aggregator `collect_counts_for_period` over an explicit
  message list, with Python dicts modelled as association lists;
* the report renderers `build_ascii_table` / `build_period_report`;
* the configuration loader `load_config` with errors as `Except`.
-/

/-- Gregorian leap-year rule, as in Python's `calendar.isleap` /
`datetime`'s internal `_is_leap`. -/
def isLeapYear (y : Nat) : Bool :=
  (y % 4 == 0 && y % 100 != 0) || y % 400 == 0

/-- Number of days in month `m` (1..12) of a year with leap flag `leap`,
as in `datetime`'s `_days_in_month`. -/
def daysInMonth (leap : Bool) (m : Nat) : Nat :=
  if m = 2 then (if leap then 29 else 28)
  else if m = 4 ∨ m = 6 ∨ m = 9 ∨ m = 11 then 30
  else 31

/-- Days in the months strictly before month `m` (1..12), as in
`datetime`'s `_days_before_month` table plus the leap adjustment. -/
def daysBeforeMonth (leap : Bool) (m : Nat) : Nat :=
  (match m with
    | 2 => 31 | 3 => 59 | 4 => 90 | 5 => 120 | 6 => 151 | 7 => 181
    | 8 => 212 | 9 => 243 | 10 => 273 | 11 => 304 | 12 => 334
    | _ => 0)
  + (if leap = true ∧ 3 ≤ m then 1 else 0)

/-- Number of leap years in years `1..y`, as in `datetime`'s
`_days_before_year` computation. -/
def leapCount (y : Nat) : Nat :=
  y / 4 - y / 100 + y / 400

/-- A calendar date, mirroring `datetime.date` (proleptic Gregorian). -/
structure Date where
  year : Nat
  month : Nat
  day : Nat
deriving DecidableEq, Repr

/-- Days in the month of a concrete year. -/
def daysInMonthOf (y m : Nat) : Nat := daysInMonth (isLeapYear y) m

/-- Validity invariant of `datetime.date` (year ≥ 1, month 1..12,
day 1..days-in-month). -/
def Date.valid (d : Date) : Prop :=
  1 ≤ d.year ∧ 1 ≤ d.month ∧ d.month ≤ 12 ∧ 1 ≤ d.day ∧
    d.day ≤ daysInMonthOf d.year d.month

instance (d : Date) : Decidable d.valid := by
  unfold Date.valid; infer_instance

/-- `datetime.date.toordinal`: 0001-01-01 is day 1. -/
def Date.toOrdinal (d : Date) : Nat :=
  365 * (d.year - 1) + leapCount (d.year - 1)
    + daysBeforeMonth (isLeapYear d.year) d.month + d.day

/-- `datetime.date.weekday`: Monday = 0 .. Sunday = 6
(0001-01-01 was a Monday). -/
def Date.weekday (d : Date) : Nat :=
  (d.toOrdinal + 6) % 7

/-- The calendar day after `d` (`d + timedelta(days=1)`). -/
def Date.next (d : Date) : Date :=
  if d.day < daysInMonthOf d.year d.month then ⟨d.year, d.month, d.day + 1⟩
  else if d.month < 12 then ⟨d.year, d.month + 1, 1⟩
  else ⟨d.year + 1, 1, 1⟩

/-- The calendar day before `d` (`d - timedelta(days=1)`). -/
def Date.prev (d : Date) : Date :=
  if 1 < d.day then ⟨d.year, d.month, d.day - 1⟩
  else if 1 < d.month then ⟨d.year, d.month - 1, daysInMonthOf d.year (d.month - 1)⟩
  else ⟨d.year - 1, 12, 31⟩

/-- `d - timedelta(days=n)`. -/
def Date.subDays (d : Date) : Nat → Date
  | 0 => d
  | n + 1 => (d.subDays n).prev

/-- `d + timedelta(days=n)`. -/
def Date.addDays (d : Date) : Nat → Date
  | 0 => d
  | n + 1 => (d.addDays n).next

/-- Python `date` strict comparison (lexicographic on year, month, day). -/
def Date.blt (a b : Date) : Bool :=
  a.year < b.year
    || (a.year == b.year
        && (a.month < b.month || (a.month == b.month && a.day < b.day)))

/-- Python `date` non-strict comparison. -/
def Date.ble (a b : Date) : Bool :=
  a.blt b || a == b

/-! ## Schedule calculator (`seconds_until_next_run`, lines 153-167)

Instants are modelled on the fixed-offset wall clock of the configured
timezone, at `datetime`'s microsecond resolution, as a pair of a day index
(any integer; `date.toordinal`-style) and the microsecond of that day.
`timedelta` values are exact microsecond counts; the float conversion of
`total_seconds()` is modelled exactly, in microseconds. -/

/-- Microseconds per day. -/
def usPerDay : Nat := 86400000000

/-- The day index of the next instant with wall-clock time `targetUs` that is
strictly after `(nowDay, nowUs)`: the `candidate` of the `weekday is None`
branch after the `if candidate <= now: candidate += timedelta(days=1)`
adjustment. `candidate <= now` holds iff `targetUs <= nowUs`, because the
initial candidate shares `now`'s date. -/
def nextDailyOccurrenceDay (targetUs : Nat) (nowDay : Int) (nowUs : Nat) : Int :=
  if targetUs ≤ nowUs then nowDay + 1 else nowDay

/-- `seconds_until_next_run(target_time, timezone_obj, weekday)`, returning
`max((candidate - now).total_seconds(), 1.0)` in microseconds.
`target_time` is `targetUs` microseconds after midnight; `now` is
`(nowDay, nowUs)` on the configured timezone's wall clock. -/
def secondsUntilNextRun (targetUs : Nat) (nowDay : Int) (nowUs : Nat)
    (weekday : Option Int) : Int :=
  match weekday with
  | none =>
    let candDay := nextDailyOccurrenceDay targetUs nowDay nowUs
    max ((candDay - nowDay) * (usPerDay : Int) + (targetUs : Int) - (nowUs : Int)) 1000000
  | some w =>
    -- days_ahead = (weekday - now.weekday()) % 7; Python's % on a positive
    -- modulus agrees with Int.emod.
    let daysAhead := (w - (nowDay + 6) % 7) % 7
    -- candidate <= now iff the candidate falls on now's date (daysAhead = 0)
    -- with targetUs <= nowUs; then candidate += timedelta(days=7).
    let candDay := if daysAhead = 0 ∧ targetUs ≤ nowUs then nowDay + 7 else nowDay + daysAhead
    max ((candDay - nowDay) * (usPerDay : Int) + (targetUs : Int) - (nowUs : Int)) 1000000

/-! ## Period windows (`weekly_period` lines 271-277, `monthly_period`
lines 279-291) -/

/-- `weekly_period(now, reason)`: Sunday-based week-to-date window for the
local date `today = now.date()`. -/
def weeklyPeriod (today : Date) (_reason : String) : Date × Date :=
  let daysSinceSunday := (today.weekday + 1) % 7
  (today.subDays daysSinceSunday, today)

/-- `monthly_period(now, reason)`: month-to-date window when `reason` is
`"manual"`, otherwise the previous calendar month. -/
def monthlyPeriod (today : Date) (reason : String) : Date × Date × String :=
  if reason = "manual" then
    (⟨today.year, today.month, 1⟩, today, "Month-to-date")
  else
    let endDate := (Date.mk today.year today.month 1).subDays 1
    (⟨endDate.year, endDate.month, 1⟩, endDate, "Previous calendar month")

/-! ## History aggregator (`collect_counts_for_period`, lines 293-332)

A historical message carries its author id, the author's bot flag, the raw
text, and `created_at.astimezone(config.timezone).date()` — the local
calendar day, precomputed since timezone conversion is external to the
aggregation logic. Python dicts are association lists (insertion order,
first-occurrence keys); Python sets are `Finset`s. -/

/-- Python's whitespace class for `str.strip()`. -/
def isPySpace (c : Char) : Bool :=
  c == ' ' || c == '\t' || c == '\n' || c == '\r' || c == '\x0b' || c == '\x0c'

/-- Python `str.strip()`. -/
def strStrip (s : String) : String :=
  String.mk (((s.toList.dropWhile isPySpace).reverse.dropWhile isPySpace).reverse)

/-- Python `str.lower()` on its ASCII core (the configured command strings
and boolean flags are ASCII). -/
def strLower (s : String) : String := String.mk (s.toList.map Char.toLower)

/-- `content.strip().lower()`, the normalization applied to message text and
command strings. -/
def normText (s : String) : String := strLower (strStrip s)

/-- Python `str.split(sep)` for a one-character separator (the separators
used are "," and ":"). -/
def splitChar (sep : Char) : List Char → List (List Char)
  | [] => [[]]
  | c :: cs =>
    let r := splitChar sep cs
    if c == sep then [] :: r
    else
      match r with
      | [] => [[c]]
      | g :: gs => (c :: g) :: gs

structure Msg where
  authorId : Int
  authorIsBot : Bool
  content : String
  localDay : Date

/-- The slice of `BotConfig` (plus the normalized command strings computed in
`DiscordAutomationBot.__init__`) that `collect_counts_for_period` reads.
`isUpdateMessage` abstracts `bool(update_message_regex.search(content))`:
the compiled case-insensitive, unanchored pattern search. -/
structure AggConfig where
  userIds : List Int
  weeklyCmd : String
  monthlyCmd : String
  reminderCmd : String
  isUpdateMessage : String → Bool
  oneUpdatePerDay : Bool

/-- `k in d` for an association-list dict. -/
def dictContains (l : List (Int × α)) (k : Int) : Bool :=
  l.any (fun p => p.1 == k)

/-- `d[k]` as an option. -/
def dictGet (l : List (Int × α)) (k : Int) : Option α :=
  (l.find? (fun p => p.1 == k)).map Prod.snd

/-- In-place update of an existing key (`d[k] = f d[k]`). -/
def dictAdjust (l : List (Int × α)) (k : Int) (f : α → α) : List (Int × α) :=
  l.map (fun p => if p.1 == k then (p.1, f p.2) else p)

/-- `{uid: v for uid in uids}`: first-occurrence key order, as for a Python
dict comprehension. -/
def dictInit (uids : List Int) (v : α) : List (Int × α) :=
  uids.foldl (fun acc u => if dictContains acc u then acc else acc ++ [(u, v)]) []

/-- Total lookup of a count (tracked users are always keys). -/
def cntOf (l : List (Int × Nat)) (u : Int) : Nat :=
  (dictGet l u).getD 0

/-- Total lookup of an active-day set. -/
def daysOf (l : List (Int × Finset Date)) (u : Int) : Finset Date :=
  (dictGet l u).getD ∅

/-- The aggregation state: the `counts` and `active_days` dicts and the
`seen_daily` set of lines 297-299. -/
structure AggState where
  counts : List (Int × Nat)
  activeDays : List (Int × Finset Date)
  seenDaily : Finset (Int × Date)

/-- One iteration of the `async for message in channel.history(...)` loop
(lines 301-330), with the exclusions in source order: bot author, the three
normalized command strings, the update-pattern search, untracked author,
out-of-window local day, and the one-update-per-day dedup gate. -/
def collectStep (cfg : AggConfig) (startDate endDate : Date)
    (st : AggState) (m : Msg) : AggState :=
  if m.authorIsBot then st
  else if normText m.content = cfg.weeklyCmd then st
  else if normText m.content = cfg.monthlyCmd then st
  else if normText m.content = cfg.reminderCmd then st
  else if ¬ cfg.isUpdateMessage m.content then st
  else if ¬ dictContains st.counts m.authorId then st
  else if m.localDay.blt startDate ∨ endDate.blt m.localDay then st
  else if cfg.oneUpdatePerDay ∧ (m.authorId, m.localDay) ∈ st.seenDaily then st
  else
    { counts := dictAdjust st.counts m.authorId (· + 1)
      activeDays := dictAdjust st.activeDays m.authorId (insert m.localDay)
      seenDaily :=
        if cfg.oneUpdatePerDay then insert (m.authorId, m.localDay) st.seenDaily
        else st.seenDaily }

/-- The initial aggregation state (lines 297-299). -/
def initAggState (cfg : AggConfig) : AggState :=
  ⟨dictInit cfg.userIds 0, dictInit cfg.userIds ∅, ∅⟩

/-- The final state of the history loop over the message stream `msgs`. -/
def collectFinal (cfg : AggConfig) (startDate endDate : Date)
    (msgs : List Msg) : AggState :=
  msgs.foldl (collectStep cfg startDate endDate) (initAggState cfg)

/-- `collect_counts_for_period`: returns `(counts, active_days)`. -/
def collectCountsForPeriod (cfg : AggConfig) (startDate endDate : Date)
    (msgs : List Msg) : List (Int × Nat) × List (Int × Finset Date) :=
  let final := collectFinal cfg startDate endDate msgs
  (final.counts, final.activeDays)

/-- A message qualifies for user `u`: authored by `u`, not a bot, not one of
the normalized command strings, matching the update pattern, and dated
inside the window. -/
def qualifiesB (cfg : AggConfig) (startDate endDate : Date) (u : Int)
    (m : Msg) : Bool :=
  !m.authorIsBot
    && !(normText m.content == cfg.weeklyCmd)
    && !(normText m.content == cfg.monthlyCmd)
    && !(normText m.content == cfg.reminderCmd)
    && cfg.isUpdateMessage m.content
    && (m.authorId == u)
    && !(m.localDay.blt startDate)
    && !(endDate.blt m.localDay)

/-- The distinct local days on which `u` posted a qualifying message. -/
def qualifyingDays (cfg : AggConfig) (startDate endDate : Date) (u : Int)
    (msgs : List Msg) : Finset Date :=
  ((msgs.filter (qualifiesB cfg startDate endDate u)).map Msg.localDay).toFinset

/-- The invariants maintained by the aggregation loop: both dicts keep
exactly the tracked user ids as keys; the active-day set is never larger
than the count; under the one-update-per-day policy the two agree exactly
and `seen_daily` mirrors the recorded (user, day) pairs. -/
def AggInv (cfg : AggConfig) (st : AggState) : Prop :=
  (∀ u, dictContains st.counts u = true ↔ u ∈ cfg.userIds) ∧
  (∀ u, dictContains st.activeDays u = true ↔ u ∈ cfg.userIds) ∧
  (∀ u, (daysOf st.activeDays u).card ≤ cntOf st.counts u) ∧
  (cfg.oneUpdatePerDay = true → ∀ u, cntOf st.counts u = (daysOf st.activeDays u).card) ∧
  (cfg.oneUpdatePerDay = true →
    ∀ u d, (u, d) ∈ st.seenDaily ↔ d ∈ daysOf st.activeDays u)

/-- The `seen_daily` set after a counted message. -/
def seenAfter (cfg : AggConfig) (st : AggState) (m : Msg) : Finset (Int × Date) :=
  if cfg.oneUpdatePerDay then insert (m.authorId, m.localDay) st.seenDaily
  else st.seenDaily

/-! ## Report renderer (`build_ascii_table` lines 170-187,
`build_period_report` lines 190-232) -/

/-- Stable insertion into a list sorted by descending key: the new element
(which originally precedes the list) goes before the first strictly-smaller
key and before any equal key. -/
def insertDesc (key : Int → Nat) (a : Int) : List Int → List Int
  | [] => [a]
  | b :: bs => if key b ≤ key a then a :: b :: bs else b :: insertDesc key a bs

/-- Stable descending sort by `key`. A stable sort by a key is unique as a
function of its input, so this insertion sort is extensionally
`sorted(user_ids, key=lambda uid: counts[uid], reverse=True)`
(Python's sort is stable, and `reverse=True` keeps ties in original
order). -/
def rankSort (key : Int → Nat) : List Int → List Int
  | [] => []
  | a :: as => insertDesc key a (rankSort key as)

/-- Lines 204-206: the row order of the report. -/
def orderedUserIds (rankReport : Bool) (userIds : List Int)
    (counts : List (Int × Nat)) : List Int :=
  if rankReport then rankSort (cntOf counts) userIds else userIds

/-- `n` copies of a character. -/
def strRepeat (c : Char) (n : Nat) : String := String.mk (List.replicate n c)

/-- Python `str.ljust`. -/
def ljust (s : String) (w : Nat) : String := s ++ strRepeat ' ' (w - s.length)

/-- The `widths[i] = max(widths[i], len(cell))` update of one row. -/
def updWidths : List Nat → List String → List Nat
  | ws, [] => ws
  | [], _ => []
  | w :: ws, c :: cs => max w c.length :: updWidths ws cs

/-- The `hr()` separator line. -/
def hrLine (widths : List Nat) : String :=
  "+-" ++ String.intercalate "-+-" (widths.map (fun w => strRepeat '-' w)) ++ "-+"

/-- The `render_row(cells)` line. -/
def renderRow (widths : List Nat) (cells : List String) : String :=
  "| " ++ String.intercalate " | " (List.zipWith ljust cells widths) ++ " |"

/-- `build_ascii_table(headers, rows)`. -/
def buildAsciiTable (headers : List String) (rows : List (List String)) : String :=
  let widths := rows.foldl updWidths (headers.map String.length)
  String.intercalate "\n"
    ([hrLine widths, renderRow widths headers, hrLine widths]
      ++ rows.map (renderRow widths) ++ [hrLine widths])

/-- Zero-pad a number to a width (for `date.isoformat`). -/
def natPad (n : Nat) (width : Nat) : String :=
  strRepeat '0' (width - (toString n).length) ++ toString n

/-- `date.isoformat()`. -/
def Date.isoformat (d : Date) : String :=
  natPad d.year 4 ++ "-" ++ natPad d.month 2 ++ "-" ++ natPad d.day 2

/-- One data row of the period report (loop body of lines 210-220). -/
def reportRow (counts : List (Int × Nat)) (activeDays : List (Int × Finset Date))
    (periodDays : Int) (includeMissedDays : Bool) (idx : Nat) (uid : Int) :
    List String :=
  [toString idx, "<@" ++ toString uid ++ ">", toString (cntOf counts uid),
    toString (daysOf activeDays uid).card,
    if includeMissedDays then
      toString (max (periodDays - ((daysOf activeDays uid).card : Int)) 0)
    else "-"]

/-- `build_period_report(...)`. Dict lookups `counts[uid]` /
`active_days[uid]` are totalized with defaults 0 / ∅; the aggregator
guarantees every tracked id is a key. -/
def buildPeriodReport (title : String) (userIds : List Int)
    (counts : List (Int × Nat)) (activeDays : List (Int × Finset Date))
    (periodStart periodEnd : Date) (periodLabel : String)
    (rankReport includeMissedDays : Bool) : String :=
  let periodDays : Int := (periodEnd.toOrdinal : Int) - (periodStart.toOrdinal : Int) + 1
  let totalUpdates := (counts.map Prod.snd).sum
  let ordered := orderedUserIds rankReport userIds counts
  let rows := ordered.enum.map
    (fun p => reportRow counts activeDays periodDays includeMissedDays (p.1 + 1) p.2)
  let table := buildAsciiTable
    ["Rank", "User", "Updates", "Active Days", "Missed Days"] rows
  String.intercalate "\n"
    [title,
     "Period: " ++ periodStart.isoformat ++ " to " ++ periodEnd.isoformat
       ++ " (" ++ periodLabel ++ ")",
     "Total Updates: " ++ toString totalUpdates,
     "```text", table, "```"]

/-- Modelled from the spec: the legacy flat-list report renderer of the
single-window variant is not present under `src/` (only the table renderer
`build_period_report` is); per the spec it emits one line per tracked user,
`"<mention> : <count> updates"`, optionally suffixed with
`" | Missed Days: <n>"`. -/
def legacyReportLines (userIds : List Int) (counts : List (Int × Nat))
    (missedDays : Int → Nat) (includeMissed : Bool) : List String :=
  userIds.map (fun uid =>
    "<@" ++ toString uid ++ "> : " ++ toString (cntOf counts uid) ++ " updates"
      ++ (if includeMissed then " | Missed Days: " ++ toString (missedDays uid)
          else ""))

/-! ## Configuration loader (`parse_*` lines 58-81, `load_config`
lines 84-142)

The process environment is a record of optional strings (`os.getenv`);
the timezone database (`zoneinfo`) is an external collaborator, abstracted
as a membership test on names. Raised `ValueError`s become `Except.error`. -/

/-- The environment variables `load_config` reads (`None` = unset). -/
structure Env where
  botToken : Option String
  channelId : Option String
  userIds : Option String
  timezone : Option String
  dailyTime : Option String
  weeklyTime : Option String
  monthlyTime : Option String
  weeklyCmd : Option String
  monthlyCmd : Option String
  reminderCmd : Option String
  updatePattern : Option String
  oneUpdatePerDay : Option String
  rankReport : Option String
  includeMissedDays : Option String

/-- `BotConfig` (lines 39-55), with wall-clock times as (hour, minute) and
the timezone kept by name. -/
structure BotConfig where
  botToken : String
  channelId : Int
  userIds : List Int
  timezoneName : String
  dailyReminderTime : Nat × Nat
  weeklyReportTime : Nat × Nat
  monthlyReportTime : Nat × Nat
  weeklyReportCommand : String
  monthlyReportCommand : String
  manualReminderCommand : String
  updateMessagePattern : String
  oneUpdatePerDay : Bool
  rankReport : Bool
  includeMissedDays : Bool

/-- Numeric value of a list of decimal digits. -/
def digitsVal (ds : List Char) : Nat :=
  ds.foldl (fun acc c => acc * 10 + (c.toNat - 48)) 0

/-- Python `int(value.strip())` on its ASCII core: optional surrounding
whitespace, optional sign, one or more decimal digits. (CPython also
accepts underscore group separators and non-ASCII digits; those are not
modelled.) `none` models the `ValueError` that `parse_int` re-raises. -/
def parsePyInt (s : String) : Option Int :=
  match (strStrip s).toList with
  | '-' :: ds =>
    if ds ≠ [] ∧ ds.all Char.isDigit then some (-(digitsVal ds : Int)) else none
  | '+' :: ds =>
    if ds ≠ [] ∧ ds.all Char.isDigit then some ((digitsVal ds : Int)) else none
  | ds =>
    if ds ≠ [] ∧ ds.all Char.isDigit then some ((digitsVal ds : Int)) else none

/-- `parse_user_ids` (lines 73-77): split on commas, strip items, drop
empties; error when no items remain or any item fails to parse. -/
def parseUserIds (value : String) : Option (List Int) :=
  let items :=
    (((splitChar ',' value.toList).map String.mk).map strStrip).filter
      (fun s => s != "")
  if items.isEmpty then none
  else items.mapM parsePyInt

/-- `parse_bool` (lines 80-81). -/
def parseBool (value : String) : Bool :=
  let t := normText value
  t == "1" || t == "true" || t == "yes" || t == "on"

/-- `parse_time` (lines 58-63) followed by the `datetime.time` constructor:
exactly one colon, both parts parse as ints in range (`time()` raises on
hour ∉ 0..23 or minute ∉ 0..59, and the `except` turns that into the same
`ValueError`). -/
def parseTimeHM (value : String) : Option (Nat × Nat) :=
  match (splitChar ':' (strStrip value).toList).map String.mk with
  | [hs, ms] =>
    match parsePyInt hs with
    | none => none
    | some h =>
      match parsePyInt ms with
      | none => none
      | some m =>
        if 0 ≤ h ∧ h ≤ 23 ∧ 0 ≤ m ∧ m ≤ 59 then some (h.toNat, m.toNat)
        else none
  | _ => none

/-- `load_config` (lines 84-142). `tzdb name` tells whether
`ZoneInfo(name)` resolves. Checks appear in source order; the
`BotConfig(...)` constructor call evaluates its `parse_time` arguments in
textual order (daily, weekly, monthly). -/
def loadConfig (tzdb : String → Bool) (env : Env) : Except String BotConfig :=
  if strStrip (env.botToken.getD "") = "" then
    Except.error "BOT_TOKEN is required."
  else if strStrip (env.channelId.getD "") = "" then
    Except.error "CHANNEL_ID is required."
  else if strStrip (env.userIds.getD "") = "" then
    Except.error "USER_IDS is required."
  else if strStrip (env.weeklyCmd.getD "!weekly_report") = "" then
    Except.error "WEEKLY_REPORT_COMMAND cannot be empty."
  else if strStrip (env.monthlyCmd.getD "!monthly_report") = "" then
    Except.error "MONTHLY_REPORT_COMMAND cannot be empty."
  else if strStrip (env.reminderCmd.getD "!daily_reminder") = "" then
    Except.error "MANUAL_REMINDER_COMMAND cannot be empty."
  else if strStrip (env.updatePattern.getD "\\b(daily\\W*updates?|updates?)\\b") = "" then
    Except.error "UPDATE_MESSAGE_PATTERN cannot be empty."
  else if ¬ tzdb (strStrip (env.timezone.getD "Africa/Cairo")) then
    Except.error ("Unknown timezone: " ++ strStrip (env.timezone.getD "Africa/Cairo"))
  else
    match parsePyInt (strStrip (env.channelId.getD "")) with
    | none => Except.error "CHANNEL_ID must be an integer."
    | some channelId =>
      match parseUserIds (strStrip (env.userIds.getD "")) with
      | none => Except.error "USER_IDS is empty or has a non-integer item."
      | some uids =>
        match parseTimeHM (strStrip (env.dailyTime.getD "16:00")) with
        | none => Except.error "DAILY_REMINDER_TIME must be in HH:MM format."
        | some dt =>
          match parseTimeHM (strStrip (env.weeklyTime.getD "20:00")) with
          | none => Except.error "WEEKLY_REPORT_TIME must be in HH:MM format."
          | some wt =>
            match parseTimeHM (strStrip (env.monthlyTime.getD "20:00")) with
            | none => Except.error "MONTHLY_REPORT_TIME must be in HH:MM format."
            | some mt =>
              Except.ok
                { botToken := strStrip (env.botToken.getD "")
                  channelId := channelId
                  userIds := uids
                  timezoneName := strStrip (env.timezone.getD "Africa/Cairo")
                  dailyReminderTime := dt
                  weeklyReportTime := wt
                  monthlyReportTime := mt
                  weeklyReportCommand := strStrip (env.weeklyCmd.getD "!weekly_report")
                  monthlyReportCommand := strStrip (env.monthlyCmd.getD "!monthly_report")
                  manualReminderCommand := strStrip (env.reminderCmd.getD "!daily_reminder")
                  updateMessagePattern :=
                    strStrip (env.updatePattern.getD "\\b(daily\\W*updates?|updates?)\\b")
                  oneUpdatePerDay := parseBool (env.oneUpdatePerDay.getD "false")
                  rankReport := parseBool (env.rankReport.getD "false")
                  includeMissedDays := parseBool (env.includeMissedDays.getD "false") }

/-- The malformed-environment condition of the specification: an empty
required field or command or pattern, an unparsable integer, a bad HH:MM
time, or an unknown timezone. -/
def configError (tzdb : String → Bool) (env : Env) : Prop :=
  strStrip (env.botToken.getD "") = "" ∨
  strStrip (env.channelId.getD "") = "" ∨
  strStrip (env.userIds.getD "") = "" ∨
  strStrip (env.weeklyCmd.getD "!weekly_report") = "" ∨
  strStrip (env.monthlyCmd.getD "!monthly_report") = "" ∨
  strStrip (env.reminderCmd.getD "!daily_reminder") = "" ∨
  strStrip (env.updatePattern.getD "\\b(daily\\W*updates?|updates?)\\b") = "" ∨
  tzdb (strStrip (env.timezone.getD "Africa/Cairo")) = false ∨
  (parsePyInt (strStrip (env.channelId.getD ""))).isNone = true ∨
  (parseUserIds (strStrip (env.userIds.getD ""))).isNone = true ∨
  (parseTimeHM (strStrip (env.dailyTime.getD "16:00"))).isNone = true ∨
  (parseTimeHM (strStrip (env.weeklyTime.getD "20:00"))).isNone = true ∨
  (parseTimeHM (strStrip (env.monthlyTime.getD "20:00"))).isNone = true

/-- Whether the result is a raised error. -/
def resultIsError : Except String BotConfig → Bool
  | Except.error _ => true
  | Except.ok _ => false

def sampleAggConfig : AggConfig :=
  { userIds := [1, 2]
    weeklyCmd := "!weekly_report"
    monthlyCmd := "!monthly_report"
    reminderCmd := "!daily_reminder"
    isUpdateMessage := fun s => s == "update"
    oneUpdatePerDay := true }

def sampleStart : Date := ⟨2024, 1, 1⟩

def sampleEnd : Date := ⟨2024, 1, 31⟩

def sampleBotMsg : Msg := ⟨1, true, "update", ⟨2024, 1, 5⟩⟩

def sampleMsgs : List Msg :=
  [⟨1, false, "update", ⟨2024, 1, 5⟩⟩, ⟨1, false, "update", ⟨2024, 1, 5⟩⟩,
    ⟨2, false, "hello", ⟨2024, 1, 6⟩⟩]

/-! ## Lemmas and claim theorems -/

lemma one_le_daysInMonth (leap : Bool) (m : Nat) : 1 ≤ daysInMonth leap m := by
  unfold daysInMonth
  split_ifs <;> omega

lemma daysInMonth_le (leap : Bool) (m : Nat) : daysInMonth leap m ≤ 31 := by
  unfold daysInMonth
  split_ifs <;> omega

lemma daysBeforeMonth_succ (leap : Bool) (m : Nat) (h1 : 1 ≤ m) (h11 : m ≤ 11) :
    daysBeforeMonth leap (m + 1) = daysBeforeMonth leap m + daysInMonth leap m := by
  interval_cases m <;> cases leap <;> decide

lemma daysBeforeMonth_twelve (leap : Bool) :
    daysBeforeMonth leap 12 + 31 = 365 + (if leap = true then 1 else 0) := by
  cases leap <;> decide

lemma leapCount_succ (y : Nat) :
    leapCount (y + 1) = leapCount y + (if isLeapYear (y + 1) = true then 1 else 0) := by
  unfold leapCount isLeapYear
  have h4 : (y + 1) / 4 = y / 4 + if 4 ∣ (y + 1) then 1 else 0 := Nat.succ_div y 4
  have h100 : (y + 1) / 100 = y / 100 + if 100 ∣ (y + 1) then 1 else 0 := Nat.succ_div y 100
  have h400 : (y + 1) / 400 = y / 400 + if 400 ∣ (y + 1) then 1 else 0 := Nat.succ_div y 400
  simp only [Nat.dvd_iff_mod_eq_zero] at h4 h100 h400
  simp only [Bool.or_eq_true, Bool.and_eq_true, beq_iff_eq, bne_iff_ne]
  split_ifs at h4 h100 h400 ⊢ <;> omega

/-- Stepping to the next day preserves validity and increments the ordinal. -/
lemma Date.next_spec (d : Date) (hv : d.valid) :
    d.next.valid ∧ d.next.toOrdinal = d.toOrdinal + 1 := by
  obtain ⟨hy, hm1, hm12, hd1, hdm⟩ := hv
  unfold daysInMonthOf at hdm
  unfold Date.next
  split_ifs with h1 h2
  · unfold daysInMonthOf at h1
    constructor
    · unfold Date.valid daysInMonthOf
      dsimp only
      omega
    · unfold Date.toOrdinal
      dsimp only
      omega
  · unfold daysInMonthOf at h1
    have hone := one_le_daysInMonth (isLeapYear d.year) (d.month + 1)
    constructor
    · unfold Date.valid daysInMonthOf
      dsimp only
      omega
    · unfold Date.toOrdinal
      dsimp only
      have hstep := daysBeforeMonth_succ (isLeapYear d.year) d.month hm1 (by omega)
      omega
  · unfold daysInMonthOf at h1
    have hm : d.month = 12 := by omega
    rw [hm] at hdm h1
    have h31 : daysInMonth (isLeapYear d.year) 12 = 31 := by
      unfold daysInMonth; norm_num
    constructor
    · unfold Date.valid daysInMonthOf
      dsimp only
      have hone := one_le_daysInMonth (isLeapYear (d.year + 1)) 1
      omega
    · unfold Date.toOrdinal
      dsimp only
      rw [hm]
      simp only [Nat.add_sub_cancel]
      have hlc : leapCount (d.year - 1 + 1) =
          leapCount (d.year - 1) + (if isLeapYear (d.year - 1 + 1) = true then 1 else 0) :=
        leapCount_succ (d.year - 1)
      have hyy : d.year - 1 + 1 = d.year := by omega
      rw [hyy] at hlc
      have hdbm1 : daysBeforeMonth (isLeapYear (d.year + 1)) 1 = 0 := by
        cases isLeapYear (d.year + 1) <;> decide
      have hdbm12 := daysBeforeMonth_twelve (isLeapYear d.year)
      rw [hdbm1]
      split_ifs at hdbm12 hlc <;> omega

/-- Stepping to the previous day: validity, round trip with `next`, and the
ordinal decrement. The hypothesis `2 ≤ toOrdinal` keeps us above 0001-01-01
(where `datetime` would raise `OverflowError`). -/
lemma Date.prev_spec (d : Date) (hv : d.valid) (h2 : 2 ≤ d.toOrdinal) :
    d.prev.valid ∧ d.prev.next = d ∧ d.prev.toOrdinal + 1 = d.toOrdinal := by
  have hnext : d.prev.valid ∧ d.prev.next = d → d.prev.toOrdinal + 1 = d.toOrdinal := by
    intro ⟨hval, hrt⟩
    have := Date.next_spec d.prev hval
    rw [hrt] at this
    omega
  have hmain : d.prev.valid ∧ d.prev.next = d := by
    obtain ⟨y, m, dd⟩ := d
    obtain ⟨hy, hm1, hm12, hd1, hdm⟩ := hv
    simp only at hy hm1 hm12 hd1 hdm h2
    unfold daysInMonthOf at hdm
    unfold Date.prev
    simp only
    split_ifs with hd hm
    · constructor
      · unfold Date.valid daysInMonthOf
        simp only
        omega
      · unfold Date.next daysInMonthOf
        simp only
        rw [if_pos (by omega)]
        have hdd : dd - 1 + 1 = dd := by omega
        rw [hdd]
    · constructor
      · have hone := one_le_daysInMonth (isLeapYear y) (m - 1)
        unfold Date.valid daysInMonthOf
        simp only
        omega
    -- day = 1, month ≥ 2: previous day is the last day of the prior month
      · unfold Date.next daysInMonthOf
        simp only
        rw [if_neg (by omega), if_pos (by omega)]
        have hmm : m - 1 + 1 = m := by omega
        have hdd : dd = 1 := by omega
        rw [hmm, hdd]
    · have hm1' : m = 1 := by omega
      have hd1' : dd = 1 := by omega
      have hy2 : 2 ≤ y := by
        by_contra hcon
        have hy1 : y = 1 := by omega
        unfold Date.toOrdinal at h2
        simp only at h2
        rw [hy1, hm1', hd1'] at h2
        have hz : daysBeforeMonth (isLeapYear 1) 1 = 0 := by decide
        rw [hz] at h2
        simp [leapCount] at h2
      have h31 : daysInMonth (isLeapYear (y - 1)) 12 = 31 := by
        unfold daysInMonth; norm_num
      constructor
      · unfold Date.valid daysInMonthOf
        simp only
        omega
    -- day = 1, month = 1: previous day is December 31 of the prior year
      · unfold Date.next daysInMonthOf
        simp only
        rw [if_neg (by omega), if_neg (by omega)]
        have hyy : y - 1 + 1 = y := by omega
        rw [hyy, hm1', hd1']
  exact ⟨hmain.1, hmain.2, hnext hmain⟩

/-- Subtracting `n` days preserves validity and subtracts `n` from the
ordinal, provided it does not run off the front of the calendar. -/
lemma Date.subDays_spec (d : Date) (hv : d.valid) :
    ∀ n : Nat, n < d.toOrdinal →
      (d.subDays n).valid ∧ (d.subDays n).toOrdinal + n = d.toOrdinal := by
  intro n
  induction n with
  | zero => exact fun _ => ⟨hv, rfl⟩
  | succ n ih =>
    intro h
    obtain ⟨hval, hord⟩ := ih (by omega)
    have := Date.prev_spec (d.subDays n) hval (by omega)
    unfold Date.subDays
    exact ⟨this.1, by omega⟩

lemma Date.ble_trans {a b c : Date} (h1 : a.ble b = true) (h2 : b.ble c = true) :
    a.ble c = true := by
  obtain ⟨ay, am, ad⟩ := a
  obtain ⟨by', bm, bd⟩ := b
  obtain ⟨cy, cm, cd⟩ := c
  simp only [Date.ble, Date.blt, Bool.or_eq_true, Bool.and_eq_true, beq_iff_eq,
    decide_eq_true_eq, Date.mk.injEq] at h1 h2 ⊢
  omega

lemma Date.blt_ble_false {a b : Date} (h1 : a.blt b = true) (h2 : b.ble a = true) :
    False := by
  obtain ⟨ay, am, ad⟩ := a
  obtain ⟨by', bm, bd⟩ := b
  simp only [Date.ble, Date.blt, Bool.or_eq_true, Bool.and_eq_true, beq_iff_eq,
    decide_eq_true_eq, Date.mk.injEq] at h1 h2
  omega

lemma Date.blt_of_lex (a b : Date)
    (h : a.year < b.year ∨ (a.year = b.year ∧
      (a.month < b.month ∨ (a.month = b.month ∧ a.day < b.day)))) :
    a.blt b = true := by
  simp only [Date.blt, Bool.or_eq_true, Bool.and_eq_true, beq_iff_eq,
    decide_eq_true_eq]
  tauto

lemma dictGet_isSome (l : List (Int × α)) (k : Int) :
    (dictGet l k).isSome = dictContains l k := by
  induction l with
  | nil => rfl
  | cons p l ih =>
    unfold dictGet dictContains at *
    by_cases h : p.1 == k <;> simp [List.find?_cons, h, ih]

lemma dictGet_values {l : List (Int × α)} {v : α} (h : ∀ p ∈ l, p.2 = v)
    (k : Int) : dictGet l k = none ∨ dictGet l k = some v := by
  unfold dictGet
  cases hfind : l.find? (fun p => p.1 == k) with
  | none => left; rfl
  | some p =>
    right
    have := List.find?_some hfind
    have hmem := List.mem_of_find?_eq_some hfind
    simp [h p hmem]

lemma dictContains_append (l : List (Int × α)) (w : Int) (v : α) (u : Int) :
    dictContains (l ++ [(w, v)]) u = (dictContains l u || w == u) := by
  simp [dictContains, List.any_append]

lemma dictInit_values (uids : List Int) (v : α) :
    ∀ p ∈ dictInit uids v, p.2 = v := by
  suffices h : ∀ (uids : List Int) (acc : List (Int × α)), (∀ p ∈ acc, p.2 = v) →
      ∀ p ∈ uids.foldl
        (fun acc u => if dictContains acc u then acc else acc ++ [(u, v)]) acc, p.2 = v by
    exact h uids [] (by simp)
  intro uids
  induction uids with
  | nil => intro acc hacc; simpa using hacc
  | cons w uids ih =>
    intro acc hacc
    simp only [List.foldl_cons]
    apply ih
    split_ifs
    · exact hacc
    · intro p hp
      rcases List.mem_append.mp hp with h | h
      · exact hacc p h
      · simp at h; simp [h]

lemma dictContains_init (uids : List Int) (v : α) (u : Int) :
    dictContains (dictInit uids v) u = true ↔ u ∈ uids := by
  suffices h : ∀ (uids : List Int) (acc : List (Int × α)),
      dictContains (uids.foldl
        (fun acc u => if dictContains acc u then acc else acc ++ [(u, v)]) acc) u = true ↔
      (dictContains acc u = true ∨ u ∈ uids) by
    rw [dictInit, h uids []]
    simp [dictContains]
  intro uids
  induction uids with
  | nil => intro acc; simp
  | cons w uids ih =>
    intro acc
    simp only [List.foldl_cons]
    rw [ih]
    split_ifs with hw
    · constructor
      · rintro (h | h)
        · exact Or.inl h
        · exact Or.inr (List.mem_cons_of_mem _ h)
      · rintro (h | h)
        · exact Or.inl h
        · rcases List.mem_cons.mp h with rfl | h
          · exact Or.inl hw
          · exact Or.inr h
    · rw [dictContains_append]
      constructor
      · rintro (h | h)
        · rcases Bool.or_eq_true _ _ |>.mp h with h | h
          · exact Or.inl h
          · have : w = u := by simpa [beq_iff_eq] using h
            exact Or.inr (this ▸ List.mem_cons_self w uids)
        · exact Or.inr (List.mem_cons_of_mem _ h)
      · rintro (h | h)
        · exact Or.inl (by simp [h])
        · rcases List.mem_cons.mp h with rfl | h
          · exact Or.inl (by simp)
          · exact Or.inr h

lemma dictGet_cons (a : Int) (b : α) (t : List (Int × α)) (u : Int) :
    dictGet ((a, b) :: t) u = if a == u then some b else dictGet t u := by
  unfold dictGet
  by_cases h : a == u <;> simp [List.find?_cons, h]

lemma dictGet_adjust_eq (l : List (Int × α)) (k : Int) (f : α → α) :
    dictGet (dictAdjust l k f) k = (dictGet l k).map f := by
  induction l with
  | nil => rfl
  | cons p t ih =>
    obtain ⟨a, b⟩ := p
    show dictGet ((if a == k then (a, f b) else (a, b)) :: dictAdjust t k f) k = _
    by_cases hak : a = k
    · simp [hak, dictGet_cons]
    · have hne : (a == k) = false := by simp [hak]
      simp [hne, dictGet_cons, ih]

lemma dictGet_adjust_ne (l : List (Int × α)) (k : Int) (f : α → α) (u : Int)
    (huk : u ≠ k) : dictGet (dictAdjust l k f) u = dictGet l u := by
  induction l with
  | nil => rfl
  | cons p t ih =>
    obtain ⟨a, b⟩ := p
    show dictGet ((if a == k then (a, f b) else (a, b)) :: dictAdjust t k f) u = _
    by_cases hak : a = k
    · have hau : ¬ a = u := fun h => huk (h ▸ hak)
      rw [if_pos (by simp [hak]), dictGet_cons, dictGet_cons,
        if_neg (by simp [hau]), if_neg (by simp [hau]), ih]
    · rw [if_neg (by simp [hak]), dictGet_cons, dictGet_cons]
      by_cases hau : a = u
      · rw [if_pos (by simp [hau]), if_pos (by simp [hau])]
      · rw [if_neg (by simp [hau]), if_neg (by simp [hau]), ih]

lemma dictContains_adjust (l : List (Int × α)) (k : Int) (f : α → α) (u : Int) :
    dictContains (dictAdjust l k f) u = dictContains l u := by
  rw [← dictGet_isSome, ← dictGet_isSome]
  by_cases huk : u = k
  · subst huk
    rw [dictGet_adjust_eq]
    cases dictGet l u <;> rfl
  · rw [dictGet_adjust_ne _ _ _ _ huk]

lemma cntOf_adjust_incr (l : List (Int × Nat)) (k u : Int) :
    cntOf (dictAdjust l k (· + 1)) u =
      if u = k ∧ dictContains l k = true then cntOf l u + 1 else cntOf l u := by
  unfold cntOf
  by_cases huk : u = k
  · subst huk
    rw [dictGet_adjust_eq]
    cases hg : dictGet l u with
    | none =>
      have hc := dictGet_isSome l u
      rw [hg] at hc
      simp [← hc]
    | some n =>
      have hc := dictGet_isSome l u
      rw [hg] at hc
      simp [← hc]
  · rw [dictGet_adjust_ne _ _ _ _ huk]
    simp [huk]

lemma daysOf_adjust_insert (l : List (Int × Finset Date)) (k u : Int) (d : Date) :
    daysOf (dictAdjust l k (insert d)) u =
      if u = k ∧ dictContains l k = true then insert d (daysOf l u) else daysOf l u := by
  unfold daysOf
  by_cases huk : u = k
  · subst huk
    rw [dictGet_adjust_eq]
    cases hg : dictGet l u with
    | none =>
      have hc := dictGet_isSome l u
      rw [hg] at hc
      simp [← hc]
    | some s =>
      have hc := dictGet_isSome l u
      rw [hg] at hc
      simp [← hc]
  · rw [dictGet_adjust_ne _ _ _ _ huk]
    simp [huk]

lemma cntOf_init (uids : List Int) (u : Int) : cntOf (dictInit uids 0) u = 0 := by
  unfold cntOf
  rcases dictGet_values (dictInit_values uids 0) u with h | h <;> simp [h]

lemma daysOf_init (uids : List Int) (u : Int) :
    daysOf (dictInit uids (∅ : Finset Date)) u = ∅ := by
  unfold daysOf
  rcases dictGet_values (dictInit_values uids (∅ : Finset Date)) u with h | h <;> simp [h]

lemma initAggState_inv (cfg : AggConfig) : AggInv cfg (initAggState cfg) := by
  refine ⟨fun u => dictContains_init _ _ _, fun u => dictContains_init _ _ _,
    fun u => ?_, fun _ u => ?_, fun _ u d => ?_⟩ <;>
    simp [initAggState, cntOf_init, daysOf_init]

/-- The loop body either counts the message (all filters passed) or leaves
the state unchanged. -/
lemma collectStep_eq (cfg : AggConfig) (s e : Date) (st : AggState) (m : Msg) :
    collectStep cfg s e st m =
      if m.authorIsBot = false ∧ normText m.content ≠ cfg.weeklyCmd ∧
          normText m.content ≠ cfg.monthlyCmd ∧
          normText m.content ≠ cfg.reminderCmd ∧
          cfg.isUpdateMessage m.content = true ∧
          dictContains st.counts m.authorId = true ∧
          ¬(m.localDay.blt s = true ∨ e.blt m.localDay = true) ∧
          ¬(cfg.oneUpdatePerDay = true ∧ (m.authorId, m.localDay) ∈ st.seenDaily)
      then
        { counts := dictAdjust st.counts m.authorId (· + 1)
          activeDays := dictAdjust st.activeDays m.authorId (insert m.localDay)
          seenDaily := seenAfter cfg st m }
      else st := by
  by_cases c1 : m.authorIsBot = true
  · simp [collectStep, c1]
  · by_cases c2 : normText m.content = cfg.weeklyCmd
    · simp [collectStep, c1, c2]
    · by_cases c3 : normText m.content = cfg.monthlyCmd
      · simp [collectStep, c1, c2, c3]
      · by_cases c4 : normText m.content = cfg.reminderCmd
        · simp [collectStep, c1, c2, c3, c4]
        · by_cases c5 : cfg.isUpdateMessage m.content = true
          · by_cases c6 : dictContains st.counts m.authorId = true
            · by_cases c7 : m.localDay.blt s = true ∨ e.blt m.localDay = true
              · simp [collectStep, c1, c2, c3, c4, c5, c6, c7]
              · by_cases c8 : cfg.oneUpdatePerDay = true ∧
                    (m.authorId, m.localDay) ∈ st.seenDaily
                · simp [collectStep, seenAfter, c1, c2, c3, c4, c5, c6, c7, c8]
                · simp [collectStep, seenAfter, c1, c2, c3, c4, c5, c6, c7, c8]
            · simp [collectStep, c1, c2, c3, c4, c5, c6]
          · simp [collectStep, c1, c2, c3, c4, c5]

lemma collectStep_inv (cfg : AggConfig) (s e : Date) (st : AggState) (m : Msg)
    (h : AggInv cfg st) : AggInv cfg (collectStep cfg s e st m) := by
  obtain ⟨hK1, hK2, hLe, hEq, hSeen⟩ := h
  rw [collectStep_eq]
  split_ifs with hcnt
  swap
  · exact ⟨hK1, hK2, hLe, hEq, hSeen⟩
  obtain ⟨hbot, hc2, hc3, hc4, hupd, hcont, hwin, hns⟩ := hcnt
  have htracked : m.authorId ∈ cfg.userIds := (hK1 _).mp hcont
  have hcont2 : dictContains st.activeDays m.authorId = true := (hK2 _).mpr htracked
  refine ⟨?_, ?_, ?_, ?_, ?_⟩
  · intro u
    dsimp only
    rw [dictContains_adjust]
    exact hK1 u
  · intro u
    dsimp only
    rw [dictContains_adjust]
    exact hK2 u
  · intro u
    dsimp only
    by_cases hu : u = m.authorId
    · rw [cntOf_adjust_incr, if_pos ⟨hu, hcont⟩,
        daysOf_adjust_insert, if_pos ⟨hu, hcont2⟩]
      calc (insert m.localDay (daysOf st.activeDays u)).card
          ≤ (daysOf st.activeDays u).card + 1 := Finset.card_insert_le _ _
        _ ≤ cntOf st.counts u + 1 := by have := hLe u; omega
    · rw [cntOf_adjust_incr, if_neg (fun hc => hu hc.1),
        daysOf_adjust_insert, if_neg (fun hc => hu hc.1)]
      exact hLe u
  · intro hd u
    dsimp only
    by_cases hu : u = m.authorId
    · rw [cntOf_adjust_incr, if_pos ⟨hu, hcont⟩,
        daysOf_adjust_insert, if_pos ⟨hu, hcont2⟩]
      have hnotseen : (m.authorId, m.localDay) ∉ st.seenDaily :=
        fun hs => hns ⟨hd, hs⟩
      have hnotday : m.localDay ∉ daysOf st.activeDays u := by
        rw [hu]
        exact fun hin => hnotseen ((hSeen hd _ _).mpr hin)
      rw [Finset.card_insert_of_not_mem hnotday, hEq hd u]
    · rw [cntOf_adjust_incr, if_neg (fun hc => hu hc.1),
        daysOf_adjust_insert, if_neg (fun hc => hu hc.1)]
      exact hEq hd u
  · intro hd u d
    dsimp only
    unfold seenAfter
    rw [if_pos hd, Finset.mem_insert, daysOf_adjust_insert]
    by_cases hu : u = m.authorId
    · rw [if_pos ⟨hu, hcont2⟩, Finset.mem_insert]
      subst hu
      constructor
      · rintro (hp | hs)
        · exact Or.inl (congrArg Prod.snd hp)
        · exact Or.inr ((hSeen hd _ _).mp hs)
      · rintro (rfl | hin)
        · exact Or.inl rfl
        · exact Or.inr ((hSeen hd _ _).mpr hin)
    · rw [if_neg (fun hc => hu hc.1)]
      constructor
      · rintro (hp | hs)
        · exact absurd (congrArg Prod.fst hp) hu
        · exact (hSeen hd _ _).mp hs
      · intro hin
        exact Or.inr ((hSeen hd _ _).mpr hin)

lemma collectFoldl_inv (cfg : AggConfig) (s e : Date) :
    ∀ (msgs : List Msg) (st : AggState), AggInv cfg st →
      AggInv cfg (msgs.foldl (collectStep cfg s e) st) := by
  intro msgs
  induction msgs with
  | nil => exact fun st h => h
  | cons m msgs ih =>
    intro st h
    exact ih _ (collectStep_inv cfg s e st m h)

lemma collectFinal_inv (cfg : AggConfig) (s e : Date) (msgs : List Msg) :
    AggInv cfg (collectFinal cfg s e msgs) :=
  collectFoldl_inv cfg s e msgs _ (initAggState_inv cfg)

lemma collectStep_skip (cfg : AggConfig) (s e : Date) (st : AggState) (m : Msg)
    (hK : ∀ u, dictContains st.counts u = true ↔ u ∈ cfg.userIds)
    (hex : m.authorIsBot = true ∨ normText m.content = cfg.weeklyCmd ∨
      normText m.content = cfg.monthlyCmd ∨
      normText m.content = cfg.reminderCmd ∨
      cfg.isUpdateMessage m.content = false ∨ m.authorId ∉ cfg.userIds) :
    collectStep cfg s e st m = st := by
  rw [collectStep_eq]
  rw [if_neg]
  rintro ⟨hbot, hc2, hc3, hc4, hupd, hcont, hwin, hns⟩
  rcases hex with h | h | h | h | h | h
  · exact absurd (hbot.symm.trans h) (by decide)
  · exact hc2 h
  · exact hc3 h
  · exact hc4 h
  · exact absurd (h.symm.trans hupd) (by decide)
  · exact h ((hK _).mp hcont)

lemma collectStep_days_subset (cfg : AggConfig) (s e : Date) (st : AggState)
    (m : Msg) (u : Int) :
    daysOf (collectStep cfg s e st m).activeDays u ⊆
      daysOf st.activeDays u ∪
        (if qualifiesB cfg s e u m = true then {m.localDay} else ∅) := by
  rw [collectStep_eq]
  by_cases hcnt : m.authorIsBot = false ∧ normText m.content ≠ cfg.weeklyCmd ∧
      normText m.content ≠ cfg.monthlyCmd ∧
      normText m.content ≠ cfg.reminderCmd ∧
      cfg.isUpdateMessage m.content = true ∧
      dictContains st.counts m.authorId = true ∧
      ¬(m.localDay.blt s = true ∨ e.blt m.localDay = true) ∧
      ¬(cfg.oneUpdatePerDay = true ∧ (m.authorId, m.localDay) ∈ st.seenDaily)
  swap
  · rw [if_neg hcnt]
    exact Finset.subset_union_left
  rw [if_pos hcnt]
  obtain ⟨hbot, hc2, hc3, hc4, hupd, hcont, hwin, hns⟩ := hcnt
  push_neg at hwin
  dsimp only
  rw [daysOf_adjust_insert]
  by_cases hc : u = m.authorId ∧ dictContains st.activeDays m.authorId = true
  · rw [if_pos hc]
    obtain ⟨hu, _⟩ := hc
    have hq : qualifiesB cfg s e u m = true := by
      unfold qualifiesB
      simp only [Bool.and_eq_true, Bool.not_eq_true', beq_iff_eq]
      refine ⟨⟨⟨⟨⟨⟨⟨hbot, ?_⟩, ?_⟩, ?_⟩, hupd⟩, hu.symm⟩, ?_⟩, ?_⟩
      · simpa using hc2
      · simpa using hc3
      · simpa using hc4
      · simpa using hwin.1
      · simpa using hwin.2
    rw [if_pos hq]
    intro x hx
    rcases Finset.mem_insert.mp hx with rfl | hxs
    · exact Finset.mem_union_right _ (Finset.mem_singleton_self _)
    · exact Finset.mem_union_left _ hxs
  · rw [if_neg hc]
    exact Finset.subset_union_left

lemma qualifyingDays_cons (cfg : AggConfig) (s e : Date) (u : Int) (m : Msg)
    (msgs : List Msg) :
    qualifyingDays cfg s e u (m :: msgs) =
      (if qualifiesB cfg s e u m = true then {m.localDay} else ∅) ∪
        qualifyingDays cfg s e u msgs := by
  unfold qualifyingDays
  by_cases hq : qualifiesB cfg s e u m = true
  · simp [hq, List.filter_cons, Finset.insert_eq]
  · simp [hq, List.filter_cons]

lemma daysOf_foldl_subset (cfg : AggConfig) (s e : Date) :
    ∀ (msgs : List Msg) (st : AggState) (u : Int),
      daysOf (msgs.foldl (collectStep cfg s e) st).activeDays u ⊆
        daysOf st.activeDays u ∪ qualifyingDays cfg s e u msgs := by
  intro msgs
  induction msgs with
  | nil =>
    intro st u
    simp [qualifyingDays]
  | cons m msgs ih =>
    intro st u
    rw [List.foldl_cons, qualifyingDays_cons]
    refine subset_trans (ih _ u) ?_
    refine subset_trans
      (Finset.union_subset_union (collectStep_days_subset cfg s e st m u)
        (subset_refl _)) ?_
    rw [Finset.union_assoc]

lemma insertDesc_perm (key : Int → Nat) (a : Int) :
    ∀ l : List Int, (insertDesc key a l).Perm (a :: l) := by
  intro l
  induction l with
  | nil => exact List.Perm.refl _
  | cons b bs ih =>
    unfold insertDesc
    split_ifs
    · exact List.Perm.refl _
    · exact List.Perm.trans (List.Perm.cons b ih) (List.Perm.swap a b bs)

lemma mem_insertDesc (key : Int → Nat) (a x : Int) (l : List Int) :
    x ∈ insertDesc key a l ↔ x = a ∨ x ∈ l := by
  rw [(insertDesc_perm key a l).mem_iff, List.mem_cons]

lemma insertDesc_sorted (key : Int → Nat) (a : Int) :
    ∀ l : List Int, List.Pairwise (fun x y => key y ≤ key x) l →
      List.Pairwise (fun x y => key y ≤ key x) (insertDesc key a l) := by
  intro l
  induction l with
  | nil => exact fun _ => List.pairwise_singleton _ _
  | cons b bs ih =>
    intro h
    rw [List.pairwise_cons] at h
    unfold insertDesc
    split_ifs with hba
    · rw [List.pairwise_cons]
      refine ⟨?_, List.pairwise_cons.mpr h⟩
      intro y hy
      rcases List.mem_cons.mp hy with rfl | hy
      · exact hba
      · exact le_trans (h.1 y hy) hba
    · rw [List.pairwise_cons]
      refine ⟨?_, ih h.2⟩
      intro y hy
      rcases (mem_insertDesc key a y bs).mp hy with rfl | hy
      · omega
      · exact h.1 y hy

lemma insertDesc_filter (key : Int → Nat) (a : Int) (c : Nat) :
    ∀ l : List Int,
      (insertDesc key a l).filter (fun u => key u == c) =
        if key a == c then a :: l.filter (fun u => key u == c)
        else l.filter (fun u => key u == c) := by
  intro l
  induction l with
  | nil =>
    unfold insertDesc
    by_cases hac : (key a == c) = true
    · rw [if_pos hac]
      simp [List.filter_cons, hac]
    · rw [if_neg hac]
      have hac' : (key a == c) = false := by simpa using hac
      simp [List.filter_cons, hac']
  | cons b bs ih =>
    unfold insertDesc
    by_cases hba : key b ≤ key a
    · rw [if_pos hba]
      by_cases hac : (key a == c) = true
      · rw [if_pos hac]
        simp [List.filter_cons, hac]
      · rw [if_neg hac]
        have hac' : (key a == c) = false := by simpa using hac
        simp [List.filter_cons, hac']
    · rw [if_neg hba]
      by_cases hac : (key a == c) = true
      · rw [if_pos hac]
        have hbc : (key b == c) = false := by
          simp only [beq_eq_false_iff_ne, ne_eq]
          simp only [beq_iff_eq] at hac
          omega
        simp [List.filter_cons, hbc, ih, hac]
      · rw [if_neg hac]
        have hac' : (key a == c) = false := by simpa using hac
        by_cases hbc : (key b == c) = true <;>
          simp [List.filter_cons, hbc, ih, hac']

lemma rankSort_perm (key : Int → Nat) :
    ∀ l : List Int, (rankSort key l).Perm l := by
  intro l
  induction l with
  | nil => exact List.Perm.refl _
  | cons a as ih =>
    exact List.Perm.trans (insertDesc_perm key a (rankSort key as))
      (List.Perm.cons a ih)

lemma rankSort_sorted (key : Int → Nat) :
    ∀ l : List Int, List.Pairwise (fun x y => key y ≤ key x) (rankSort key l) := by
  intro l
  induction l with
  | nil => exact List.Pairwise.nil
  | cons a as ih => exact insertDesc_sorted key a _ ih

lemma rankSort_filter (key : Int → Nat) (c : Nat) :
    ∀ l : List Int,
      (rankSort key l).filter (fun u => key u == c) =
        l.filter (fun u => key u == c) := by
  intro l
  induction l with
  | nil => rfl
  | cons a as ih =>
    show (insertDesc key a (rankSort key as)).filter _ = _
    rw [insertDesc_filter]
    by_cases hac : key a == c <;> simp [List.filter_cons, hac, ih]

/-! ## Claims -/

/-- C1: for every history stream, window and configuration,
`collect_counts_for_period` lets no excluded message contribute to any
user's count or active-day set: a message from an automated (bot) sender,
one whose trimmed lower-cased text equals one of the three configured
command strings, one whose text fails the update-pattern search, or one
whose author is untracked is skipped entirely (deleting it from the stream
changes nothing). The embedded loop body applies the four exclusions in
source order: bot, command strings, pattern, untracked author. -/
theorem collect_exclusions_skip
    (cfg : AggConfig) (s e : Date) (msgs1 msgs2 : List Msg) (m : Msg)
    (hex : m.authorIsBot = true ∨ normText m.content = cfg.weeklyCmd ∨
      normText m.content = cfg.monthlyCmd ∨
      normText m.content = cfg.reminderCmd ∨
      cfg.isUpdateMessage m.content = false ∨ m.authorId ∉ cfg.userIds) :
    collectCountsForPeriod cfg s e (msgs1 ++ m :: msgs2) =
      collectCountsForPeriod cfg s e (msgs1 ++ msgs2) := by
  unfold collectCountsForPeriod collectFinal
  have hinv := collectFoldl_inv cfg s e msgs1 (initAggState cfg) (initAggState_inv cfg)
  have hskip := collectStep_skip cfg s e _ m hinv.1 hex
  rw [List.foldl_append, List.foldl_cons, hskip, ← List.foldl_append]

/-- C1 witness: a bot-authored message contributes nothing. -/
theorem collect_exclusions_skip_witness :
    collectCountsForPeriod sampleAggConfig sampleStart sampleEnd [sampleBotMsg] =
      collectCountsForPeriod sampleAggConfig sampleStart sampleEnd [] :=
  collect_exclusions_skip sampleAggConfig sampleStart sampleEnd [] [] sampleBotMsg
    (Or.inl rfl)

/-- C2: with the one-update-per-day policy enabled, no user's count can
exceed the number of distinct local days on which they posted a qualifying
message inside the window. -/
theorem collect_dedup_count_bound
    (cfg : AggConfig) (s e : Date) (msgs : List Msg)
    (hd : cfg.oneUpdatePerDay = true) (u : Int) :
    cntOf (collectCountsForPeriod cfg s e msgs).1 u ≤
      (qualifyingDays cfg s e u msgs).card := by
  have hinv := collectFinal_inv cfg s e msgs
  have heq := hinv.2.2.2.1 hd u
  show cntOf (collectFinal cfg s e msgs).counts u ≤ _
  rw [heq]
  apply Finset.card_le_card
  have hsub := daysOf_foldl_subset cfg s e msgs (initAggState cfg) u
  have hinit : daysOf (initAggState cfg).activeDays u = ∅ :=
    daysOf_init cfg.userIds u
  rw [hinit] at hsub
  simpa using hsub

/-- C2 witness: user 1 posts the same qualifying day twice; the count is
bounded by the one distinct day. -/
theorem collect_dedup_count_bound_witness :
    cntOf (collectCountsForPeriod sampleAggConfig sampleStart sampleEnd sampleMsgs).1 1 ≤
      (qualifyingDays sampleAggConfig sampleStart sampleEnd 1 sampleMsgs).card :=
  collect_dedup_count_bound sampleAggConfig sampleStart sampleEnd sampleMsgs rfl 1

/-- C10: after every aggregation run, each user's active-day set is never
larger than their count; with the one-update-per-day policy the two agree
exactly; and both result dicts have exactly the tracked user ids as keys. -/
theorem collect_invariants (cfg : AggConfig) (s e : Date) (msgs : List Msg) :
    (∀ u, dictContains (collectCountsForPeriod cfg s e msgs).1 u = true ↔
      u ∈ cfg.userIds) ∧
    (∀ u, dictContains (collectCountsForPeriod cfg s e msgs).2 u = true ↔
      u ∈ cfg.userIds) ∧
    (∀ u, (daysOf (collectCountsForPeriod cfg s e msgs).2 u).card ≤
      cntOf (collectCountsForPeriod cfg s e msgs).1 u) ∧
    (cfg.oneUpdatePerDay = true →
      ∀ u, cntOf (collectCountsForPeriod cfg s e msgs).1 u =
        (daysOf (collectCountsForPeriod cfg s e msgs).2 u).card) := by
  obtain ⟨h1, h2, h3, h4, _⟩ := collectFinal_inv cfg s e msgs
  exact ⟨h1, h2, h3, h4⟩

/-- C10 witness: with the policy on, count 1 equals one distinct active
day for the concrete stream. -/
theorem collect_invariants_witness :
    cntOf (collectCountsForPeriod sampleAggConfig sampleStart sampleEnd sampleMsgs).1 1 =
      (daysOf (collectCountsForPeriod sampleAggConfig sampleStart sampleEnd sampleMsgs).2 1).card :=
  (collect_invariants sampleAggConfig sampleStart sampleEnd sampleMsgs).2.2.2 rfl 1

/-- C3 (amended): the daily schedule computation always returns at least
one second; whenever `now` is at least one second before the next target
occurrence, `now + result` lands exactly on the target wall-clock time on
the same or next calendar day; and when `now` equals the target exactly,
it rolls over a full day. (Within the final second before the target the
`max(..., 1.0)` clamp overshoots; see the counterexample.) -/
theorem secondsUntilNextRun_daily_spec (targetUs nowUs : Nat) (nowDay : Int)
    (_hus : nowUs < usPerDay) (_ht : targetUs < usPerDay)
    (hgap : 1000000 ≤ (nextDailyOccurrenceDay targetUs nowDay nowUs - nowDay) *
      (usPerDay : Int) + (targetUs : Int) - (nowUs : Int)) :
    1000000 ≤ secondsUntilNextRun targetUs nowDay nowUs none ∧
    nowDay * (usPerDay : Int) + (nowUs : Int) +
        secondsUntilNextRun targetUs nowDay nowUs none =
      nextDailyOccurrenceDay targetUs nowDay nowUs * (usPerDay : Int) +
        (targetUs : Int) ∧
    (nextDailyOccurrenceDay targetUs nowDay nowUs = nowDay ∨
      nextDailyOccurrenceDay targetUs nowDay nowUs = nowDay + 1) ∧
    (nowUs = targetUs →
      secondsUntilNextRun targetUs nowDay nowUs none = (usPerDay : Int)) := by
  have hP : ((usPerDay : Nat) : Int) = 86400000000 := by norm_num [usPerDay]
  have hrun : secondsUntilNextRun targetUs nowDay nowUs none =
      max ((nextDailyOccurrenceDay targetUs nowDay nowUs - nowDay) *
        (usPerDay : Int) + (targetUs : Int) - (nowUs : Int)) 1000000 := rfl
  rw [hrun, max_eq_left (le_trans (by norm_num) hgap)]
  clear hrun
  unfold nextDailyOccurrenceDay at hgap ⊢
  rw [hP] at hgap ⊢
  by_cases hc : targetUs ≤ nowUs
  · rw [if_pos hc] at hgap ⊢
    refine ⟨hgap, by omega, Or.inr rfl, fun h => by omega⟩
  · rw [if_neg hc] at hgap ⊢
    refine ⟨hgap, by omega, Or.inl rfl, fun h => absurd (le_of_eq h.symm) hc⟩

/-- C3 witness: one minute after local midnight as the target, with `now`
at midnight: the wait is exactly 60 seconds and lands on the target. -/
theorem secondsUntilNextRun_daily_spec_witness :
    1000000 ≤ secondsUntilNextRun 60000000 0 0 none ∧
    (0 : Int) * (usPerDay : Int) + (0 : Int) +
        secondsUntilNextRun 60000000 0 0 none =
      nextDailyOccurrenceDay 60000000 0 0 * (usPerDay : Int) + 60000000 :=
  ⟨(secondsUntilNextRun_daily_spec 60000000 0 0 (by norm_num [usPerDay])
      (by norm_num [usPerDay])
      (by norm_num [nextDailyOccurrenceDay, usPerDay])).1,
    (secondsUntilNextRun_daily_spec 60000000 0 0 (by norm_num [usPerDay])
      (by norm_num [usPerDay])
      (by norm_num [nextDailyOccurrenceDay, usPerDay])).2.1⟩

/-- C3 counterexample: with the target at 00:01:00 local and `now` one
microsecond before it, the result is clamped to exactly one second, and
`now + result` lands on neither today's nor tomorrow's target instant —
so "now + result lands exactly on the target wall-clock time on the same
or next calendar day" fails as stated, even though the result is ≥ 1 s. -/
theorem secondsUntilNextRun_exact_landing_cex :
    secondsUntilNextRun 60000000 0 59999999 none = 1000000 ∧
    (59999999 : Int) + 1000000 ≠ (60000000 : Int) ∧
    (59999999 : Int) + 1000000 ≠ (usPerDay : Int) + 60000000 := by
  refine ⟨?_, by norm_num, by norm_num [usPerDay]⟩
  decide

/-- C4: `weekly_period` returns `end = today` and `start` = the most
recent Sunday on or before today: the start is a valid date with weekday
Sunday (6), at the weekday distance `(weekday + 1) % 7` (< 7) back from
today, and on a Sunday the window is the single day `today`. The
hypothesis `7 ≤ toOrdinal` keeps the subtraction on the calendar
(`datetime` raises below year 1). -/
theorem weeklyPeriod_spec (today : Date) (r : String) (hv : today.valid)
    (h7 : 7 ≤ today.toOrdinal) :
    (weeklyPeriod today r).2 = today ∧
    (weeklyPeriod today r).1.valid ∧
    (weeklyPeriod today r).1.weekday = 6 ∧
    (weeklyPeriod today r).1.toOrdinal + (today.weekday + 1) % 7 =
      today.toOrdinal ∧
    today.toOrdinal - (weeklyPeriod today r).1.toOrdinal < 7 ∧
    (today.weekday = 6 → (weeklyPeriod today r).1 = today) := by
  have hk : (today.weekday + 1) % 7 < today.toOrdinal := by
    have : (today.weekday + 1) % 7 < 7 := Nat.mod_lt _ (by norm_num)
    omega
  obtain ⟨hval, hord⟩ := Date.subDays_spec today hv _ hk
  refine ⟨rfl, hval, ?_, hord, ?_, ?_⟩
  · show (today.subDays ((today.weekday + 1) % 7)).weekday = 6
    unfold Date.weekday at hord ⊢
    omega
  · show today.toOrdinal - (today.subDays ((today.weekday + 1) % 7)).toOrdinal < 7
    have h7' : (today.weekday + 1) % 7 < 7 := Nat.mod_lt _ (by norm_num)
    omega
  · intro hw
    show today.subDays ((today.weekday + 1) % 7) = today
    rw [hw]
    rfl

/-- C4 witness: 2024-03-05 (a Tuesday) yields the window
2024-03-03 (Sunday) .. 2024-03-05. -/
theorem weeklyPeriod_spec_witness :
    weeklyPeriod ⟨2024, 3, 5⟩ "scheduled" = (⟨2024, 3, 3⟩, ⟨2024, 3, 5⟩) ∧
    (weeklyPeriod ⟨2024, 3, 5⟩ "scheduled").1.weekday = 6 :=
  ⟨by decide,
    (weeklyPeriod_spec ⟨2024, 3, 5⟩ "scheduled" (by decide) (by decide)).2.2.1⟩

lemma firstOfMonth_valid (today : Date) (hv : today.valid) :
    (Date.mk today.year today.month 1).valid :=
  ⟨hv.1, hv.2.1, hv.2.2.1, le_refl 1,
    one_le_daysInMonth (isLeapYear today.year) today.month⟩

lemma firstOfMonth_ord (today : Date) (hv : today.valid)
    (hym : 2 ≤ today.year ∨ 2 ≤ today.month) :
    2 ≤ (Date.mk today.year today.month 1).toOrdinal := by
  obtain ⟨hy, hm1, hm12, _, _⟩ := hv
  unfold Date.toOrdinal
  dsimp only
  rcases hym with hy2 | hm2
  · have : 365 * 1 ≤ 365 * (today.year - 1) := by
      apply Nat.mul_le_mul_left
      omega
    omega
  · have hdbm : 31 ≤ daysBeforeMonth (isLeapYear today.year) today.month := by
      have h2 : 2 ≤ today.month := hm2
      have h12 : today.month ≤ 12 := hm12
      interval_cases today.month <;> cases isLeapYear today.year <;> decide
    omega

/-- The scheduled monthly end date, in both calendar cases. -/
lemma monthlyPeriod_sched_end_cases (today : Date) (hv : today.valid)
    (hym : 2 ≤ today.year ∨ 2 ≤ today.month) :
    ((Date.mk today.year today.month 1).subDays 1 =
        ⟨today.year, today.month - 1,
          daysInMonthOf today.year (today.month - 1)⟩ ∧ 2 ≤ today.month) ∨
    ((Date.mk today.year today.month 1).subDays 1 =
        ⟨today.year - 1, 12, 31⟩ ∧ today.month = 1 ∧ 2 ≤ today.year) := by
  obtain ⟨hy, hm1, hm12, _, _⟩ := hv
  by_cases hm2 : 2 ≤ today.month
  · left
    refine ⟨?_, hm2⟩
    show (Date.mk today.year today.month 1).prev = _
    unfold Date.prev
    dsimp only
    rw [if_neg (by norm_num), if_pos (by omega)]
  · right
    have hm1' : today.month = 1 := by omega
    have hy2 : 2 ≤ today.year := by
      rcases hym with h | h
      · exact h
      · omega
    refine ⟨?_, hm1', hy2⟩
    show (Date.mk today.year today.month 1).prev = _
    unfold Date.prev
    dsimp only
    rw [if_neg (by norm_num), if_neg (by omega)]

/-- C5: the scheduled monthly window lies fully inside the calendar month
strictly before `now`'s month: `start.day = 1`, start and end are valid
dates in the same month, `end` is that month's last day, and that month is
the immediate predecessor of the current one (across year boundaries). -/
theorem monthlyPeriod_scheduled_spec (today : Date) (reason : String)
    (hv : today.valid) (hym : 2 ≤ today.year ∨ 2 ≤ today.month)
    (hr : reason ≠ "manual") :
    (monthlyPeriod today reason).1.day = 1 ∧
    (monthlyPeriod today reason).1.valid ∧
    (monthlyPeriod today reason).2.1.valid ∧
    (monthlyPeriod today reason).1.year = (monthlyPeriod today reason).2.1.year ∧
    (monthlyPeriod today reason).1.month =
      (monthlyPeriod today reason).2.1.month ∧
    (monthlyPeriod today reason).2.1.day =
      daysInMonthOf (monthlyPeriod today reason).2.1.year
        (monthlyPeriod today reason).2.1.month ∧
    (((monthlyPeriod today reason).2.1.year = today.year ∧
        (monthlyPeriod today reason).2.1.month + 1 = today.month) ∨
      ((monthlyPeriod today reason).2.1.year + 1 = today.year ∧
        (monthlyPeriod today reason).2.1.month = 12 ∧ today.month = 1)) ∧
    (monthlyPeriod today reason).2.2 = "Previous calendar month" := by
  have hcases := monthlyPeriod_sched_end_cases today hv hym
  obtain ⟨hy, hm1, hm12, _, _⟩ := hv
  unfold monthlyPeriod
  rw [if_neg hr]
  dsimp only
  rcases hcases with ⟨heq, hm2⟩ | ⟨heq, hm1', hy2⟩
  · rw [heq]
    dsimp only
    refine ⟨rfl, ?_, ?_, rfl, rfl, rfl, Or.inl ⟨rfl, by omega⟩, rfl⟩
    · unfold Date.valid daysInMonthOf
      dsimp only
      have := one_le_daysInMonth (isLeapYear today.year) (today.month - 1)
      omega
    · unfold Date.valid daysInMonthOf
      dsimp only
      have := one_le_daysInMonth (isLeapYear today.year) (today.month - 1)
      omega
  · rw [heq]
    dsimp only
    have h31 : daysInMonthOf (today.year - 1) 12 = 31 := by
      unfold daysInMonthOf daysInMonth
      norm_num
    refine ⟨rfl, ?_, ?_, rfl, rfl, h31.symm, Or.inr ⟨by omega, rfl, hm1'⟩, rfl⟩
    · unfold Date.valid daysInMonthOf
      dsimp only
      have := one_le_daysInMonth (isLeapYear (today.year - 1)) 12
      omega
    · unfold Date.valid
      dsimp only
      refine ⟨by omega, by norm_num, by norm_num, by norm_num, ?_⟩
      rw [h31]

/-- C5 witness: the 2024-03-05 example across the leap February:
start 2024-02-01, end 2024-02-29. -/
theorem monthlyPeriod_scheduled_spec_witness :
    monthlyPeriod ⟨2024, 3, 5⟩ "scheduled" =
      (⟨2024, 2, 1⟩, ⟨2024, 2, 29⟩, "Previous calendar month") ∧
    (monthlyPeriod ⟨2024, 3, 5⟩ "scheduled").1.day = 1 :=
  ⟨by decide,
    (monthlyPeriod_scheduled_spec ⟨2024, 3, 5⟩ "scheduled" (by decide)
      (Or.inl (by norm_num)) (by decide)).1⟩

/-- C6: on the same date, the manual month-to-date window and the
scheduled previous-month window are adjacent and non-overlapping: the
manual start (first of the current month) is exactly one day after the
scheduled end (last of the previous month), is strictly later than it,
and no date lies in both closed windows. -/
theorem monthlyPeriod_manual_scheduled_adjacent (today : Date)
    (hv : today.valid) (hym : 2 ≤ today.year ∨ 2 ≤ today.month) :
    (monthlyPeriod today "manual").1 =
      ((monthlyPeriod today "scheduled").2.1).next ∧
    (monthlyPeriod today "manual").2.2 = "Month-to-date" ∧
    (monthlyPeriod today "manual").1 = ⟨today.year, today.month, 1⟩ ∧
    (monthlyPeriod today "manual").2.1 = today ∧
    Date.blt (monthlyPeriod today "scheduled").2.1
      (monthlyPeriod today "manual").1 = true ∧
    (∀ x : Date,
      Date.ble (monthlyPeriod today "manual").1 x = true →
      Date.ble x (monthlyPeriod today "scheduled").2.1 = true → False) := by
  have hps := Date.prev_spec (Date.mk today.year today.month 1)
    (firstOfMonth_valid today hv) (firstOfMonth_ord today hv hym)
  have hman1 : (monthlyPeriod today "manual").1 = ⟨today.year, today.month, 1⟩ := rfl
  have hman2 : (monthlyPeriod today "manual").2.1 = today := rfl
  have hman3 : (monthlyPeriod today "manual").2.2 = "Month-to-date" := rfl
  have hsch : (monthlyPeriod today "scheduled").2.1 =
      (Date.mk today.year today.month 1).subDays 1 := rfl
  have hblt : Date.blt ((Date.mk today.year today.month 1).subDays 1)
      ⟨today.year, today.month, 1⟩ = true := by
    rcases monthlyPeriod_sched_end_cases today hv hym with
      ⟨heq, hm2⟩ | ⟨heq, hm1', hy2⟩
    · rw [heq]
      exact Date.blt_of_lex _ _ (Or.inr ⟨rfl, Or.inl (by dsimp only; omega)⟩)
    · rw [heq]
      exact Date.blt_of_lex _ _ (Or.inl (by dsimp only; omega))
  refine ⟨?_, hman3, hman1, hman2, ?_, ?_⟩
  · rw [hman1, hsch]
    exact hps.2.1.symm
  · rw [hman1, hsch]
    exact hblt
  · intro x hx1 hx2
    rw [hman1] at hx1
    rw [hsch] at hx2
    exact Date.blt_ble_false hblt (Date.ble_trans hx1 hx2)

/-- C6 witness: at 2024-03-05, the manual window starts 2024-03-01, one
day after the scheduled end 2024-02-29. -/
theorem monthlyPeriod_manual_scheduled_adjacent_witness :
    (monthlyPeriod ⟨2024, 3, 5⟩ "manual").1 =
      ((monthlyPeriod ⟨2024, 3, 5⟩ "scheduled").2.1).next :=
  (monthlyPeriod_manual_scheduled_adjacent ⟨2024, 3, 5⟩ (by decide)
    (Or.inl (by norm_num))).1

/-- C7: the row order of `build_period_report`. With ranking enabled,
`orderedUserIds` (the list the report rows enumerate) is a permutation of
the configured list sorted by descending count, and it is stable: for
every count value, the users with that count appear in exactly their
configured relative order. With ranking disabled the configured order is
returned unchanged. -/
theorem report_ranking_spec (userIds : List Int) (counts : List (Int × Nat)) :
    orderedUserIds false userIds counts = userIds ∧
    (orderedUserIds true userIds counts).Perm userIds ∧
    List.Pairwise (fun a b => cntOf counts b ≤ cntOf counts a)
      (orderedUserIds true userIds counts) ∧
    (∀ c : Nat,
      (orderedUserIds true userIds counts).filter
          (fun u => cntOf counts u == c) =
        userIds.filter (fun u => cntOf counts u == c)) :=
  ⟨rfl, rankSort_perm _ _, rankSort_sorted _ _,
    fun c => rankSort_filter _ c _⟩

/-- C8 (modelled from the spec, see `legacyReportLines`): the legacy
flat-list renderer emits exactly one line per configured user, in order;
with the missed-days option the line is
`"<mention> : <count> updates | Missed Days: <n>"`, without it the line is
exactly `"<mention> : <count> updates"`. -/
theorem legacyReport_line_format (userIds : List Int)
    (counts : List (Int × Nat)) (missedDays : Int → Nat) (i : Nat) (uid : Int)
    (h : userIds.get? i = some uid) :
    (legacyReportLines userIds counts missedDays true).length = userIds.length ∧
    (legacyReportLines userIds counts missedDays false).length = userIds.length ∧
    (legacyReportLines userIds counts missedDays true).get? i =
      some (("<@" ++ toString uid ++ "> : " ++ toString (cntOf counts uid)
        ++ " updates") ++ (" | Missed Days: " ++ toString (missedDays uid))) ∧
    (legacyReportLines userIds counts missedDays false).get? i =
      some ("<@" ++ toString uid ++ "> : " ++ toString (cntOf counts uid)
        ++ " updates") := by
  refine ⟨List.length_map _ _, List.length_map _ _, ?_, ?_⟩
  · unfold legacyReportLines
    rw [List.get?_map, h]
    rfl
  · unfold legacyReportLines
    rw [List.get?_map, h]
    simp

/-- C8 witness: a single user with count 4 and 2 missed days. -/
theorem legacyReport_line_format_witness :
    (legacyReportLines [7] [(7, 4)] (fun _ => 2) true).get? 0 =
      some (("<@" ++ toString (7 : Int) ++ "> : " ++ toString (cntOf [(7, 4)] 7)
        ++ " updates") ++ (" | Missed Days: " ++ toString 2)) ∧
    (legacyReportLines [7] [(7, 4)] (fun _ => 2) false).get? 0 =
      some "<@7> : 4 updates" :=
  ⟨(legacyReport_line_format [7] [(7, 4)] (fun _ => 2) 0 7 rfl).2.2.1,
    (legacyReport_line_format [7] [(7, 4)] (fun _ => 2) 0 7 rfl).2.2.2⟩

/-- C9: `load_config` raises exactly when the environment is malformed —
an empty `BOT_TOKEN`, `CHANNEL_ID` or `USER_IDS`, an empty command string
or update pattern, an unknown timezone, an unparsable `CHANNEL_ID` or
`USER_IDS` item, or a time value not parsing as a valid `HH:MM` — and
returns a configuration value otherwise. -/
theorem loadConfig_error_iff (tzdb : String → Bool) (env : Env) :
    resultIsError (loadConfig tzdb env) = true ↔ configError tzdb env := by
  unfold loadConfig configError
  by_cases h1 : strStrip (env.botToken.getD "") = ""
  · simp [h1, resultIsError]
  rw [if_neg h1]
  by_cases h2 : strStrip (env.channelId.getD "") = ""
  · simp [h1, h2, resultIsError]
  rw [if_neg h2]
  by_cases h3 : strStrip (env.userIds.getD "") = ""
  · simp [h1, h2, h3, resultIsError]
  rw [if_neg h3]
  by_cases h4 : strStrip (env.weeklyCmd.getD "!weekly_report") = ""
  · simp [h1, h2, h3, h4, resultIsError]
  rw [if_neg h4]
  by_cases h5 : strStrip (env.monthlyCmd.getD "!monthly_report") = ""
  · simp [h1, h2, h3, h4, h5, resultIsError]
  rw [if_neg h5]
  by_cases h6 : strStrip (env.reminderCmd.getD "!daily_reminder") = ""
  · simp [h1, h2, h3, h4, h5, h6, resultIsError]
  rw [if_neg h6]
  by_cases h7 :
      strStrip (env.updatePattern.getD "\\b(daily\\W*updates?|updates?)\\b") = ""
  · simp [h1, h2, h3, h4, h5, h6, h7, resultIsError]
  rw [if_neg h7]
  by_cases h8 : tzdb (strStrip (env.timezone.getD "Africa/Cairo")) = true
  case neg =>
    rw [if_pos h8]
    have h8' : tzdb (strStrip (env.timezone.getD "Africa/Cairo")) = false := by
      simpa using h8
    simp [h1, h2, h3, h4, h5, h6, h7, h8', resultIsError]
  rw [if_neg (not_not_intro h8)]
  cases h9 : parsePyInt (strStrip (env.channelId.getD "")) with
  | none => simp [h1, h2, h3, h4, h5, h6, h7, h8, h9, resultIsError]
  | some channelId =>
  cases h10 : parseUserIds (strStrip (env.userIds.getD "")) with
  | none => simp [h1, h2, h3, h4, h5, h6, h7, h8, h9, h10, resultIsError]
  | some uids =>
  cases h11 : parseTimeHM (strStrip (env.dailyTime.getD "16:00")) with
  | none => simp [h1, h2, h3, h4, h5, h6, h7, h8, h9, h10, h11, resultIsError]
  | some dt =>
  cases h12 : parseTimeHM (strStrip (env.weeklyTime.getD "20:00")) with
  | none => simp [h1, h2, h3, h4, h5, h6, h7, h8, h9, h10, h11, h12, resultIsError]
  | some wt =>
  cases h13 : parseTimeHM (strStrip (env.monthlyTime.getD "20:00")) with
  | none =>
    simp [h1, h2, h3, h4, h5, h6, h7, h8, h9, h10, h11, h12, h13, resultIsError]
  | some mt =>
    simp [h1, h2, h3, h4, h5, h6, h7, h8, h9, h10, h11, h12, h13, resultIsError]
